import Mathlib

/-!
Verification of the Script component of a transaction/script engine
(source file script.py).  The data model and the operations are embedded
shallowly: Python byte strings become lists of naturals, streams become a
list read from the front, fallible operations return Option (none stands
for an uncaught Python exception), and the heterogeneous item list of a
Script becomes a tagged sum.  Collaborator code that the Script class
imports from other modules (the varint codec, the opcode functions, the
hashing primitives, the address encoders, the signing context) is either
modelled from the specification text or taken as a parameter, as noted on
each definition.
-/

set_option maxRecDepth 4096

/-- A Python byte string: a list of byte values. -/
abbrev Bytes := List Nat

/-- An element of the Script item list: either an opcode (a Python int)
or a data push (a Python byte string).  Mirrors the heterogeneous list
held in Script.items. -/
inductive Item where
  | op (code : Nat)
  | data (bs : Bytes)
deriving DecidableEq, Repr

/-- An element of the evaluation stack: Python ints and byte strings mix
on the stack during Script.evaluate. -/
inductive StackItem where
  | num (n : Int)
  | bytes (bs : Bytes)
deriving DecidableEq, Repr

abbrev Stack := List StackItem

/-- Python equality between stack elements: ints compare numerically,
byte strings compare element-wise, and an int never equals a byte
string (this is how the CPython == treats the mixed case). -/
def pyEq : StackItem → StackItem → Bool
  | StackItem.num a, StackItem.num b => a == b
  | StackItem.bytes a, StackItem.bytes b => a == b
  | _, _ => false

/-- Modelled from the spec: little_endian_to_int from helper.py is not
under src/; fixed-width two-way conversion, little-endian byte order. -/
def little_endian_to_int : Bytes → Nat
  | [] => 0
  | b :: rest => b + 256 * little_endian_to_int rest

/-- Little-endian digit expansion of n into a fixed number of bytes. -/
def int_to_le_go : Nat → Nat → Bytes
  | 0, _ => []
  | w + 1, n => n % 256 :: int_to_le_go w (n / 256)

/-- Modelled from the spec: int_to_little_endian from helper.py is not
under src/; fixed-width conversion, failing (none, an OverflowError in
Python) when n does not fit in the requested width. -/
def int_to_little_endian (n w : Nat) : Option Bytes :=
  if n < 256 ^ w then some (int_to_le_go w n) else none

/-- Modelled from the spec: encode_varint from helper.py is not under
src/; 1/3/5/9-byte encoding, failing (none, an EncodingError in Python)
when n exceeds the 8-byte range. -/
def encode_varint (n : Nat) : Option Bytes :=
  if n < 0xfd then some [n]
  else if n < 0x10000 then (int_to_little_endian n 2).map (0xfd :: ·)
  else if n < 0x100000000 then (int_to_little_endian n 4).map (0xfe :: ·)
  else if n < 0x10000000000000000 then (int_to_little_endian n 8).map (0xff :: ·)
  else none

/-- Modelled from the spec: read_varint from helper.py is not under
src/; reads one byte, and for the markers 0xfd/0xfe/0xff reads a 2/4/8
byte little-endian integer (Python stream reads return at most the
requested bytes, so a short stream is decoded short silently); reading
the first byte of an empty stream is an IndexError (none). -/
def read_varint : Bytes → Option (Nat × Bytes)
  | [] => none
  | b :: rest =>
    if b = 0xfd then some (little_endian_to_int (rest.take 2), rest.drop 2)
    else if b = 0xfe then some (little_endian_to_int (rest.take 4), rest.drop 4)
    else if b = 0xff then some (little_endian_to_int (rest.take 8), rest.drop 8)
    else some (b, rest)

/-- The while loop of Script.parse: `remaining` is the declared length
minus the count of bytes read so far.  Each step reads one control byte
(an IndexError, hence none, if the stream is empty while the loop still
runs); a control byte between 1 and 75 reads that many following bytes
as one data item (a short stream yields a short item silently, exactly
as BytesIO.read does); any other control byte becomes an opcode item. -/
def parseLoop : Nat → Bytes → Option (List Item × Bytes)
  | 0, s => some ([], s)
  | _ + 1, [] => none
  | remaining + 1, b :: rest =>
    if 1 ≤ b ∧ b ≤ 75 then
      match parseLoop (remaining - b) (rest.drop b) with
      | none => none
      | some (items, left) => some (Item.data (rest.take b) :: items, left)
    else
      match parseLoop remaining rest with
      | none => none
      | some (items, left) => some (Item.op b :: items, left)
termination_by remaining _ => remaining
decreasing_by
  · omega
  · omega

/-- The ordered item list of a script, as held by Script.items. -/
structure Script where
  items : List Item
deriving DecidableEq, Repr

/-- Script.parse: reads a varint length from the stream and then runs
the counting loop; returns the parsed script together with the unread
remainder of the stream (the stream position after the call). -/
def Script.parse (s : Bytes) : Option (Script × Bytes) :=
  match read_varint s with
  | none => none
  | some (length, rest) =>
    match parseLoop length rest with
    | none => none
    | some (items, left) => some (⟨items⟩, left)

/-- The body of Script.raw_serialize over an item list: an opcode item
emits its single byte (int_to_little_endian with width 1); a data item
emits a 1-byte length followed by the raw bytes. -/
def serialize_items : List Item → Option Bytes
  | [] => some []
  | Item.op b :: rest => do
    let x ← int_to_little_endian b 1
    let r ← serialize_items rest
    pure (x ++ r)
  | Item.data d :: rest => do
    let p ← int_to_little_endian d.length 1
    let r ← serialize_items rest
    pure (p ++ d ++ r)

/-- Script.raw_serialize: serialization without the length guard. -/
def Script.raw_serialize (s : Script) : Option Bytes :=
  serialize_items s.items

/-- Script.serialize: the raw serialization prefixed with the
encode_varint of its total length. -/
def Script.serialize (s : Script) : Option Bytes := do
  let raw ← s.raw_serialize
  let pre ← encode_varint raw.length
  pure (pre ++ raw)

/-- Script.hash160: digest of the raw (unprefixed) serialization; the
hash160 primitive from helper.py is not under src/ and is passed in as a
pure function. -/
def Script.hash160 (f : Bytes → Bytes) (s : Script) : Option Bytes :=
  (s.raw_serialize).map f

/-- Script.sha256: digest of the raw (unprefixed) serialization; the
sha256 primitive from helper.py is not under src/ and is passed in as a
pure function. -/
def Script.sha256 (f : Bytes → Bytes) (s : Script) : Option Bytes :=
  (s.raw_serialize).map f

/-- Script.__add__: concatenation of the two item lists. -/
def Script.add (a b : Script) : Script := ⟨a.items ++ b.items⟩

instance : Add Script := ⟨Script.add⟩

/-- p2pkh_script from script.py: the five-item P2PKH scriptPubKey
template built from a hash160. -/
def p2pkh_script (h160 : Bytes) : Script :=
  ⟨[Item.op 0x76, Item.op 0xa9, Item.data h160, Item.op 0x88, Item.op 0xac]⟩

/-- An item is well formed for round-tripping exactly when it could come
out of a successful, untruncated parse: an opcode item is a byte value
outside the data-push range 1..75, and a data item holds between 1 and
75 bytes. -/
def itemWF : Item → Bool
  | Item.op b => decide (b < 256) && !(decide (1 ≤ b ∧ b ≤ 75))
  | Item.data d => decide (1 ≤ d.length ∧ d.length ≤ 75)

/-- A script is well formed (a valid parsed instance) when all its items
are. -/
def Script.wellFormed (s : Script) : Bool :=
  s.items.all itemWF

/-- The capabilities Script.evaluate draws from outside script.py: the
opcode table OP_CODE_FUNCTIONS of op.py (not under src/) as a total map
from code to a stack transformer returning none on failure, the separate
entry points used for the checksig family 172..175 which additionally
receive the digest-producing capability sig_hash of the signing context
(the tx_in argument, whose class lives in tx.py, not under src/), the
witness program of that context, and the pure hashing primitives from
helper.py.  σ is the abstract type of the digest capability. -/
structure Env (σ : Type) where
  ops : Nat → Stack → Option Stack
  sigOps : Nat → σ → Stack → Option Stack
  sigHash : σ
  witness : List Bytes
  h160 : Bytes → Bytes
  sha256 : Bytes → Bytes

/-- The membership test item in (172, 173, 174, 175) from evaluate. -/
def is_sig_op (b : Nat) : Bool :=
  b == 172 || b == 173 || b == 174 || b == 175

/-- Modelled from the spec: op_hash160 from op.py is not under src/;
standard HASH160 semantics, popping one element and pushing its hash160
digest, failing on malformed operands (empty stack or a non-bytes
element, which hash160 cannot digest). -/
def op_hash160 (h160 : Bytes → Bytes) : Stack → Option Stack
  | StackItem.bytes bs :: rest => some (StackItem.bytes (h160 bs) :: rest)
  | _ => none

/-- Modelled from the spec: op_equal from op.py is not under src/;
standard OP_EQUAL semantics, popping two elements and pushing the
integer 1 when they are equal and 0 otherwise, failing when fewer than
two elements are on the stack. -/
def op_equal : Stack → Option Stack
  | a :: b :: rest => some (StackItem.num (if pyEq a b then 1 else 0) :: rest)
  | _ => none

/-- The p2sh trigger of evaluate: the remaining item queue holds exactly
three items, an opcode 0xa9, a 20-byte data item, and an opcode 0x87
(the Python comparisons items[0] == 0xa9 and items[2] == 0x87 only
succeed on int items). -/
def p2shTrigger : List Item → Bool
  | [Item.op 0xa9, Item.data h, Item.op 0x87] => h.length == 20
  | _ => false

/-- The final check of evaluate once the item queue is empty: an empty
stack fails; then the popped top fails only when it equals the Python
integer 0 (a byte string never equals an int in Python). -/
def finalCheck : Stack → Bool
  | [] => false
  | top :: _ => !(pyEq top (StackItem.num 0))

/-- The p2sh branch of the data-push arm of evaluate.  d is the item
just pushed (already on top of stack), queue the remaining items.  When
the trigger matches, the length-prefixed redeem script is formed (a
failing encode_varint is an uncaught exception, none), the three queue
items are popped, op_hash160 runs on the stack, the 20-byte hash from
the queue is pushed, op_equal runs, the popped result must equal the
integer 1, and the parsed redeem script items replace the (now empty)
queue.  Check failures return Sum.inl false (the interpreter returns
False); otherwise the new queue and stack continue. -/
def p2shPhase (σ : Type) (E : Env σ) (d : Bytes) (queue : List Item) (stack : Stack) :
    Option (Bool ⊕ (List Item × Stack)) :=
  match queue with
  | [Item.op 0xa9, Item.data h, Item.op 0x87] =>
    if h.length = 20 then
      match encode_varint d.length with
      | none => none
      | some pre =>
        match op_hash160 E.h160 stack with
        | none => some (Sum.inl false)
        | some st1 =>
          match op_equal (StackItem.bytes h :: st1) with
          | none => some (Sum.inl false)
          | some st2 =>
            match st2 with
            | [] => none
            | top :: st3 =>
              if pyEq top (StackItem.num 1) then
                match Script.parse (pre ++ d) with
                | none => none
                | some (r, _) => some (Sum.inr (r.items, st3))
              else some (Sum.inl false)
    else some (Sum.inr (queue, stack))
  | _ => some (Sum.inr (queue, stack))

/-- The p2wpkh branch of the data-push arm of evaluate: when the stack
holds exactly two elements, the bottom one equal to the Python integer
0 and the top one a 20-byte byte string, both are popped and the queue
is extended at the back, first with the witness program items and then
with the p2pkh script built from the popped hash.  This branch has no
failure exits. -/
def p2wpkhPhase (σ : Type) (E : Env σ) (queue : List Item) (stack : Stack) :
    List Item × Stack :=
  match stack with
  | [StackItem.bytes h, s0] =>
    if pyEq s0 (StackItem.num 0) ∧ h.length = 20 then
      (queue ++ E.witness.map Item.data ++ (p2pkh_script h).items, [])
    else (queue, stack)
  | _ => (queue, stack)

/-- The p2wsh branch of the data-push arm of evaluate: when the stack
holds exactly two elements, the bottom one the Python integer 0 and the
top one a 32-byte byte string, both are popped, the queue is extended at
the back with all witness program items but the last (indexing the last
of an empty witness program is an uncaught IndexError, none), the sha256
of the last witness item must equal the popped 32-byte value (mismatch
returns False), and the parsed witness script items are appended at the
back of the queue.  The Python code extends the queue before the hash
check, but a False return discards the queue, so performing the
extension on the success path only is observationally identical. -/
def p2wshPhase (σ : Type) (E : Env σ) (queue : List Item) (stack : Stack) :
    Option (Bool ⊕ (List Item × Stack)) :=
  match stack with
  | [StackItem.bytes h, s0] =>
    if pyEq s0 (StackItem.num 0) ∧ h.length = 32 then
      match E.witness.getLast? with
      | none => none
      | some ws =>
        if h ≠ E.sha256 ws then some (Sum.inl false)
        else
          match encode_varint ws.length with
          | none => none
          | some pre =>
            match Script.parse (pre ++ ws) with
            | none => none
            | some (r, _) =>
              some (Sum.inr (queue ++ (E.witness.dropLast).map Item.data ++ r.items, []))
    else some (Sum.inr (queue, stack))
  | _ => some (Sum.inr (queue, stack))

/-- One iteration of the while loop of evaluate, after the head item has
been popped from the queue.  An opcode item is dispatched through the
opcode table, the checksig family 172..175 receiving the digest
capability; a returned failure makes the interpreter return False
(Sum.inl false).  A data item is pushed onto the stack and the three
rewrite branches then run in order on the updated state. -/
def evalStep (σ : Type) (E : Env σ) : Item → List Item → Stack →
    Option (Bool ⊕ (List Item × Stack))
  | Item.op b, queue, stack =>
    match (if is_sig_op b then E.sigOps b E.sigHash stack else E.ops b stack) with
    | none => some (Sum.inl false)
    | some stack2 => some (Sum.inr (queue, stack2))
  | Item.data d, queue, stack =>
    match p2shPhase σ E d queue (StackItem.bytes d :: stack) with
    | none => none
    | some (Sum.inl b) => some (Sum.inl b)
    | some (Sum.inr (q1, s1)) =>
      match p2wpkhPhase σ E q1 s1 with
      | (q2, s2) =>
        match p2wshPhase σ E q2 s2 with
        | none => none
        | some (Sum.inl b) => some (Sum.inl b)
        | some (Sum.inr (q3, s3)) => some (Sum.inr (q3, s3))

/-- The while loop of evaluate over the private item queue and the
stack.  The rewrite branches may extend the queue, so the loop is not
structurally bounded by the script; fuel counts loop iterations and
running out is modelled as none. -/
def evalLoop (σ : Type) (E : Env σ) : Nat → List Item → Stack → Option Bool
  | _, [], stack => some (finalCheck stack)
  | 0, _ :: _, _ => none
  | fuel + 1, item :: rest, stack =>
    match evalStep σ E item rest stack with
    | none => none
    | some (Sum.inl b) => some b
    | some (Sum.inr (q, st)) => evalLoop σ E fuel q st

/-- Script.evaluate as a function of the item list: the loop starts from
a copy of the items and an empty stack. -/
def Script.evaluate (σ : Type) (E : Env σ) (fuel : Nat) (s : Script) : Option Bool :=
  evalLoop σ E fuel s.items []

/-- The state of a running evaluate call, keeping the receiver object
alongside the local variables items (the queue, initialized to a copy)
and stack; the method body never assigns to the receiver. -/
structure EvalState where
  this : Script
  queue : List Item
  stack : Stack

/-- The while loop of evaluate threading the receiver object through
every iteration, returning the result together with the receiver as it
stands when the method returns. -/
def evalLoopSt (σ : Type) (E : Env σ) : Nat → EvalState → Option Bool × Script
  | _, ⟨this, [], stack⟩ => (some (finalCheck stack), this)
  | 0, ⟨this, _ :: _, _⟩ => (none, this)
  | fuel + 1, ⟨this, item :: rest, stack⟩ =>
    match evalStep σ E item rest stack with
    | none => (none, this)
    | some (Sum.inl b) => (some b, this)
    | some (Sum.inr (q, st)) => evalLoopSt σ E fuel ⟨this, q, st⟩

/-- Script.evaluate as a method call: the loop starts from the receiver,
a copy of its item list, and an empty stack, and the pair returned
exposes the receiver after the call. -/
def Script.evaluateMethod (σ : Type) (E : Env σ) (fuel : Nat) (s : Script) :
    Option Bool × Script :=
  evalLoopSt σ E fuel ⟨s, s.items, []⟩

/-- Script.is_p2pkh_script_pubkey: the exact five-item shape
OP_DUP OP_HASH160 <20 byte hash> OP_EQUALVERIFY OP_CHECKSIG. -/
def Script.is_p2pkh_script_pubkey (s : Script) : Bool :=
  match s.items with
  | [Item.op 0x76, Item.op 0xa9, Item.data h, Item.op 0x88, Item.op 0xac] =>
    h.length == 20
  | _ => false

/-- Script.is_p2sh_script_pubkey: the exact three-item shape
OP_HASH160 <20 byte hash> OP_EQUAL. -/
def Script.is_p2sh_script_pubkey (s : Script) : Bool :=
  match s.items with
  | [Item.op 0xa9, Item.data h, Item.op 0x87] => h.length == 20
  | _ => false

/-- Script.is_p2wpkh_script_pubkey: the exact two-item shape
OP_0 <20 byte hash>. -/
def Script.is_p2wpkh_script_pubkey (s : Script) : Bool :=
  match s.items with
  | [Item.op 0x00, Item.data h] => h.length == 20
  | _ => false

/-- Script.is_p2wsh_script_pubkey: the exact two-item shape
OP_0 <32 byte hash>. -/
def Script.is_p2wsh_script_pubkey (s : Script) : Bool :=
  match s.items with
  | [Item.op 0x00, Item.data h] => h.length == 32
  | _ => false

/-- The external address encoders that Script.address delegates to;
they live in helper.py, not under src/, and are taken as parameters
producing values of an abstract address-string type α. -/
structure AddrEnv (α : Type) where
  h160_to_p2pkh_address : Bytes → Bool → α
  h160_to_p2sh_address : Bytes → Bool → α
  encode_bech32_checksum : Bytes → Bytes → α

/-- Script.address: matches the item list against the four templates in
order and delegates to the matching encoder; the p2pkh and p2sh branches
pass the embedded hash and the testnet flag, the two witness branches
pass the raw serialization and the bech32 human-readable part chosen by
the testnet flag; no match returns none (the Python method falls off the
end and returns None).  The inner wildcard arms are unreachable because
the template predicates pin the item shape. -/
def Script.address (α : Type) (A : AddrEnv α) (s : Script) (testnet : Bool) :
    Option α :=
  if s.is_p2pkh_script_pubkey then
    match s.items with
    | [_, _, Item.data h, _, _] => some (A.h160_to_p2pkh_address h testnet)
    | _ => none
  else if s.is_p2sh_script_pubkey then
    match s.items with
    | [_, Item.data h, _] => some (A.h160_to_p2sh_address h testnet)
    | _ => none
  else if s.is_p2wpkh_script_pubkey then
    match s.raw_serialize with
    | some w =>
      some (A.encode_bech32_checksum w (if testnet then [0x74, 0x62] else [0x62, 0x63]))
    | none => none
  else if s.is_p2wsh_script_pubkey then
    match s.raw_serialize with
    | some w =>
      some (A.encode_bech32_checksum w (if testnet then [0x74, 0x62] else [0x62, 0x63]))
    | none => none
  else none

/-- The truthiness of a final top-of-stack element as the claim words
it: a byte string is truthy when it is non-empty and not all zero bytes;
the encoded zero is falsy (an integer is truthy when non-zero). -/
def truthyClaim : StackItem → Bool
  | StackItem.bytes bs => !bs.isEmpty && bs.any (fun b => b != 0)
  | StackItem.num n => n != 0

/-- The p2sh trigger as the claim words it: the next three remaining
unconsumed items match opcode 0xa9, a 20-byte data item, opcode 0x87,
with no constraint that they are the only remaining items. -/
def p2sh_next_three : List Item → Bool
  | Item.op 0xa9 :: Item.data h :: Item.op 0x87 :: _ => h.length == 20
  | _ => false

/-- The queue that the claim wording of the p2wpkh rewrite produces: the
witness program items are prepended to the remaining queue and the
p2pkh script is then prepended in front of them. -/
def witness_rewrite_claim_queue (witness : List Bytes) (h : Bytes)
    (queue : List Item) : List Item :=
  (p2pkh_script h).items ++ witness.map Item.data ++ queue

/-- A concrete twenty-byte hash used by the concrete evaluation runs. -/
def h20 : Bytes := List.replicate 20 0xcc

/-- A concrete signing context and opcode table for concrete evaluation
runs: opcode 0 pushes the integer 0, opcode 0x51 pushes the integer 1,
everything else fails; the witness program holds the single item 0xab;
the hashing primitives are the identity. -/
def E0 : Env Unit :=
  { ops := fun b st =>
      if b = 0 then some (StackItem.num 0 :: st)
      else if b = 0x51 then some (StackItem.num 1 :: st)
      else none
    sigOps := fun _ _ _ => none
    sigHash := ()
    witness := [[0xab]]
    h160 := id
    sha256 := id }

/-- A concrete signing context whose hash160 primitive sends every byte
string to the fixed twenty-byte hash h20. -/
def E1 : Env Unit :=
  { ops := fun _ _ => none
    sigOps := fun _ _ _ => none
    sigHash := ()
    witness := []
    h160 := fun _ => h20
    sha256 := id }

/-- A concrete thirty-two-byte hash used by the concrete evaluation
runs. -/
def h32 : Bytes := List.replicate 32 0xee

/-- A concrete signing context whose sha256 primitive sends every byte
string to the fixed thirty-two-byte hash h32. -/
def E2 : Env Unit :=
  { ops := fun _ _ => none
    sigOps := fun _ _ _ => none
    sigHash := ()
    witness := [[0xab]]
    h160 := id
    sha256 := fun _ => h32 }

/-- Concrete address encoders distinguishing the four delegation
targets by a numeric tag. -/
def A0 : AddrEnv Nat :=
  { h160_to_p2pkh_address := fun _ _ => 1
    h160_to_p2sh_address := fun _ _ => 2
    encode_bech32_checksum := fun _ _ => 3 }

theorem p2shPhase_skip (σ : Type) (E : Env σ) (d : Bytes) (q : List Item)
    (st : Stack) (hq : p2shTrigger q = false) :
    p2shPhase σ E d q st = some (Sum.inr (q, st)) := by
  unfold p2shPhase
  split
  · next h =>
    rw [if_neg]
    simp only [p2shTrigger] at hq
    simpa using hq
  · rfl

theorem p2wpkhPhase_skip (σ : Type) (E : Env σ) (q : List Item) (st : Stack)
    (hst : st.length ≠ 2) :
    p2wpkhPhase σ E q st = (q, st) := by
  rcases st with _ | ⟨a, _ | ⟨b, _ | ⟨c, r⟩⟩⟩
  · rfl
  · cases a <;> rfl
  · exact absurd rfl hst
  · cases a <;> rfl

theorem p2wshPhase_skip (σ : Type) (E : Env σ) (q : List Item) (st : Stack)
    (hst : st.length ≠ 2) :
    p2wshPhase σ E q st = some (Sum.inr (q, st)) := by
  rcases st with _ | ⟨a, _ | ⟨b, _ | ⟨c, r⟩⟩⟩
  · rfl
  · cases a <;> rfl
  · exact absurd rfl hst
  · cases a <;> rfl

/-- C1 (amended): when the item queue is empty the interpreter returns
the final stack check, and that check succeeds exactly when the stack is
non-empty and its top element does not equal the Python integer 0; in
particular any byte-string top element passes, since a byte string never
equals an int in Python. -/
theorem evaluate_empty_queue_termination (σ : Type) (E : Env σ) (fuel : Nat)
    (stack : Stack) :
    evalLoop σ E fuel [] stack = some (finalCheck stack)
    ∧ (finalCheck stack = true
        ↔ ∃ top rest, stack = top :: rest ∧ pyEq top (StackItem.num 0) = false) := by
  constructor
  · cases fuel <;> rfl
  · cases stack with
    | nil => simp [finalCheck]
    | cons top rest =>
      simp only [finalCheck, Bool.not_eq_true']
      constructor
      · intro h
        exact ⟨top, rest, rfl, h⟩
      · rintro ⟨t, r, heq, hp⟩
        injection heq with h1 h2
        rw [h1]
        exact hp

/-- C1 (counterexample): a script consisting of a single one-byte data
push of 0x00 leaves the all-zero byte string on top of the stack, which
the claim calls falsy, yet evaluate returns true, because the final
check only compares the popped top against the Python integer 0 and a
byte string never equals an int. -/
theorem evaluate_allzero_bytes_top_truthy_cx :
    Script.evaluate Unit E0 1 ⟨[Item.data [0]]⟩ = some true
    ∧ truthyClaim (StackItem.bytes [0]) = false := ⟨rfl, rfl⟩

/-- C7 (confirmed): an opcode item is dispatched through the opcode
table, the checksig family 172..175 receiving the digest capability of
the signing context as an extra argument while every opcode receives the
shared stack, and a returned failure makes evaluate return false at once
regardless of the remaining items. -/
theorem evaluate_opcode_dispatch (σ : Type) (E : Env σ) (fuel b : Nat)
    (rest : List Item) (stack : Stack) :
    evalLoop σ E (fuel + 1) (Item.op b :: rest) stack =
      match (if is_sig_op b then E.sigOps b E.sigHash stack else E.ops b stack) with
      | none => some false
      | some stack2 => evalLoop σ E fuel rest stack2 := by
  cases h : (if is_sig_op b then E.sigOps b E.sigHash stack else E.ops b stack) with
  | none => simp [evalLoop, evalStep, h]
  | some stack2 => simp [evalLoop, evalStep, h]

theorem evalLoopSt_spec (σ : Type) (E : Env σ) (fuel : Nat) :
    ∀ (this : Script) (q : List Item) (st : Stack),
      evalLoopSt σ E fuel ⟨this, q, st⟩ = (evalLoop σ E fuel q st, this) := by
  induction fuel with
  | zero => intro this q st; cases q <;> rfl
  | succ n ih =>
    intro this q st
    cases q with
    | nil => rfl
    | cons i rest =>
      cases h : evalStep σ E i rest st with
      | none => simp [evalLoopSt, evalLoop, h]
      | some x =>
        cases x with
        | inl b => simp [evalLoopSt, evalLoop, h]
        | inr p => simp [evalLoopSt, evalLoop, h, ih]

/-- C8 (confirmed): the evaluate method runs on a private copy of the
item list: its boolean result is a pure function of the copied items and
the receiver script comes back unchanged from every run, including the
runs in which the rewrite branches splice items into the working queue. -/
theorem evaluate_preserves_items (σ : Type) (E : Env σ) (fuel : Nat) (s : Script) :
    Script.evaluateMethod σ E fuel s = (Script.evaluate σ E fuel s, s) := by
  unfold Script.evaluateMethod Script.evaluate
  exact evalLoopSt_spec σ E fuel s s.items []

/-- C2 (amended): the p2sh rewrite fires only when exactly three items
remain unconsumed and they are opcode 0xa9, a 20-byte data item, and
opcode 0x87.  In that case the just-pushed item d is serialized with a
length prefix, the three items are consumed, HASH160, the pushed hash
and EQUAL run against the stack, a hash mismatch aborts evaluation with
false, and on success the parsed redeem script items become the queue
(they are spliced onto the front of the remaining queue, which the
trigger has emptied) while the stack returns to its pre-push contents. -/
theorem p2sh_rewrite_exact_three (σ : Type) (E : Env σ) (fuel : Nat)
    (d h : Bytes) (S : Stack) (hh : h.length = 20) (hd : d.length < 0xfd)
    (hS : S.length ≠ 2) :
    (∀ (R : Script) (left : Bytes), E.h160 d = h →
      Script.parse (d.length :: d) = some (R, left) →
      evalLoop σ E (fuel + 1) [Item.data d, Item.op 0xa9, Item.data h, Item.op 0x87] S
        = evalLoop σ E fuel R.items S)
    ∧ (E.h160 d ≠ h →
      evalLoop σ E (fuel + 1) [Item.data d, Item.op 0xa9, Item.data h, Item.op 0x87] S
        = some false) := by
  have henc : encode_varint d.length = some [d.length] := by
    simp [encode_varint, hd]
  constructor
  · intro R left hEq hParse
    have hstep : evalStep σ E (Item.data d) [Item.op 0xa9, Item.data h, Item.op 0x87] S
        = some (Sum.inr (R.items, S)) := by
      simp only [evalStep, p2shPhase, hh, if_true, henc, op_hash160, op_equal, pyEq, hEq]
      simp only [beq_self_eq_true, if_true, if_pos rfl]
      norm_num
      simp only [hParse]
      rw [p2wpkhPhase_skip σ E _ _ hS, p2wshPhase_skip σ E _ _ hS]
    simp only [evalLoop, hstep]
  · intro hne
    have hbe : (h == E.h160 d) = false := by
      rw [beq_eq_false_iff_ne]
      exact fun hx => hne hx.symm
    have hstep : evalStep σ E (Item.data d) [Item.op 0xa9, Item.data h, Item.op 0x87] S
        = some (Sum.inl false) := by
      simp only [evalStep, p2shPhase, hh, if_true, henc, op_hash160, op_equal, pyEq, hbe]
      norm_num
    simp only [evalLoop, hstep]

/-- C2 (witness): a concrete run of the successful rewrite: the pushed
item 0x51 hashes (under the concrete hash160) to the 20-byte hash in the
queue, the three queue items are consumed and replaced by the parsed
redeem script, here the single opcode 0x51. -/
theorem p2sh_rewrite_exact_three_witness :
    evalLoop Unit E1 1 [Item.data [0x51], Item.op 0xa9, Item.data h20, Item.op 0x87] []
      = evalLoop Unit E1 0 [Item.op 0x51] [] := by
  have hp : Script.parse (([0x51] : Bytes).length :: [0x51])
      = some (⟨[Item.op 0x51]⟩, []) := by
    norm_num [Script.parse, read_varint, parseLoop]
  exact (p2sh_rewrite_exact_three Unit E1 0 [0x51] h20 [] (by simp [h20]) (by decide)
    (by decide)).1 ⟨[Item.op 0x51]⟩ [] rfl hp

/-- C2 (counterexample): with four items remaining whose first three
match the claimed pattern, the claimed trigger holds, yet the code does
not execute the rewrite: the step leaves all four items unconsumed and
merely pushes the data item, because the code additionally requires that
exactly three items remain. -/
theorem p2sh_lookahead_no_trigger_cx :
    p2sh_next_three
        [Item.op 0xa9, Item.data (List.replicate 20 0xaa), Item.op 0x87, Item.op 0x51] = true
    ∧ evalStep Unit E0 (Item.data [0x51])
        [Item.op 0xa9, Item.data (List.replicate 20 0xaa), Item.op 0x87, Item.op 0x51] []
      = some (Sum.inr
          ([Item.op 0xa9, Item.data (List.replicate 20 0xaa), Item.op 0x87, Item.op 0x51],
           [StackItem.bytes [0x51]])) := ⟨rfl, rfl⟩

/-- C3 (amended): immediately after a data push, when the stack holds
exactly two elements, the bottom one the integer 0 and the top one the
just-pushed 20-byte item, both are popped and the witness program items
followed by the p2pkh script items are appended at the BACK of the
remaining item queue; when the top is a 32-byte item, both are popped,
the witness program items except the last are appended at the back, a
sha256 mismatch of the last witness item aborts with false, and on a
match the parsed witness script items are appended at the back as
well. -/
theorem witness_rewrite_appends (σ : Type) (E : Env σ) (fuel : Nat)
    (h : Bytes) (q : List Item) (hq : p2shTrigger q = false) :
    (h.length = 20 →
      evalLoop σ E (fuel + 1) (Item.data h :: q) [StackItem.num 0]
        = evalLoop σ E fuel (q ++ E.witness.map Item.data ++ (p2pkh_script h).items) [])
    ∧ (∀ (ws : Bytes) (init : List Bytes), h.length = 32 →
        E.witness.getLast? = some ws → E.witness.dropLast = init →
        ((E.sha256 ws ≠ h →
            evalLoop σ E (fuel + 1) (Item.data h :: q) [StackItem.num 0] = some false)
         ∧ (∀ (R : Script) (left : Bytes), E.sha256 ws = h → ws.length < 0xfd →
              Script.parse (ws.length :: ws) = some (R, left) →
              evalLoop σ E (fuel + 1) (Item.data h :: q) [StackItem.num 0]
                = evalLoop σ E fuel (q ++ init.map Item.data ++ R.items) []))) := by
  constructor
  · intro hh
    have hstep : evalStep σ E (Item.data h) q [StackItem.num 0]
        = some (Sum.inr (q ++ E.witness.map Item.data ++ (p2pkh_script h).items, [])) := by
      simp only [evalStep]
      rw [p2shPhase_skip σ E _ _ _ hq]
      simp only [p2wpkhPhase, pyEq, hh]
      norm_num
      rw [p2wshPhase_skip σ E _ _ (by simp)]
    simp only [evalLoop, hstep]
  · intro ws init hh hlast hinit
    have h1 : p2wpkhPhase σ E q [StackItem.bytes h, StackItem.num 0]
        = (q, [StackItem.bytes h, StackItem.num 0]) := by
      simp [p2wpkhPhase, pyEq, hh]
    constructor
    · intro hmis
      have h2 : p2wshPhase σ E q [StackItem.bytes h, StackItem.num 0]
          = some (Sum.inl false) := by
        simp only [p2wshPhase]
        rw [if_pos ⟨rfl, hh⟩]
        simp only [hlast, ne_eq]
        rw [if_pos (fun hx => hmis hx.symm)]
      have hstep : evalStep σ E (Item.data h) q [StackItem.num 0]
          = some (Sum.inl false) := by
        simp only [evalStep]
        rw [p2shPhase_skip σ E _ _ _ hq]
        simp only [h1, h2]
      simp only [evalLoop, hstep]
    · intro R left hmat hws hParse
      have henc : encode_varint ws.length = some [ws.length] := by
        simp [encode_varint, hws]
      have h2 : p2wshPhase σ E q [StackItem.bytes h, StackItem.num 0]
          = some (Sum.inr (q ++ init.map Item.data ++ R.items, [])) := by
        simp only [p2wshPhase]
        rw [if_pos ⟨rfl, hh⟩]
        simp only [hlast, ne_eq]
        rw [if_neg (fun hn => hn hmat.symm)]
        simp only [henc]
        have hxx : ([ws.length] : Bytes) ++ ws = ws.length :: ws := rfl
        simp only [hxx, hParse, hinit]
      have hstep : evalStep σ E (Item.data h) q [StackItem.num 0]
          = some (Sum.inr (q ++ init.map Item.data ++ R.items, [])) := by
        simp only [evalStep]
        rw [p2shPhase_skip σ E _ _ _ hq]
        simp only [h1, h2]
      simp only [evalLoop, hstep]

/-- C3 (witness): concrete runs of both rewrite branches: the p2wpkh
branch appends the witness program and the p2pkh script behind the
(empty) queue, and the p2wsh branch appends the witness program except
its last item and the parsed witness script, here the single opcode
0xab. -/
theorem witness_rewrite_appends_witness :
    evalLoop Unit E0 1 [Item.data h20] [StackItem.num 0]
      = evalLoop Unit E0 0 ([] ++ [[0xab]].map Item.data ++ (p2pkh_script h20).items) []
    ∧ evalLoop Unit E2 1 [Item.data h32] [StackItem.num 0]
      = evalLoop Unit E2 0 ([] ++ [].map Item.data ++ [Item.op 0xab]) [] := by
  have hp : Script.parse (([0xab] : Bytes).length :: [0xab])
      = some (⟨[Item.op 0xab]⟩, []) := by
    norm_num [Script.parse, read_varint, parseLoop]
  exact ⟨(witness_rewrite_appends Unit E0 0 h20 [] rfl).1 (by simp [h20]),
   (((witness_rewrite_appends Unit E2 0 h32 [] rfl).2 [0xab] [] (by simp [h32]) rfl
      rfl).2 ⟨[Item.op 0xab]⟩ [] rfl (by decide) hp)⟩

/-- C3 (counterexample): with a non-empty remaining queue (the single
opcode 0x51) the p2wpkh rewrite puts the queue first and the witness
program and p2pkh items after it, so the spliced items are appended at
the back, not prepended to the front as the claim words it. -/
theorem witness_rewrite_append_not_prepend_cx :
    evalStep Unit E0 (Item.data h20) [Item.op 0x51] [StackItem.num 0]
      = some (Sum.inr ([Item.op 0x51] ++ [Item.data [0xab]] ++ (p2pkh_script h20).items, []))
    ∧ [Item.op 0x51] ++ [Item.data [0xab]] ++ (p2pkh_script h20).items
        ≠ witness_rewrite_claim_queue [[0xab]] h20 [Item.op 0x51] :=
  ⟨rfl, by decide⟩
theorem int_to_le_go_length (w : Nat) : ∀ n, (int_to_le_go w n).length = w := by
  induction w with
  | zero => intro n; rfl
  | succ k ih => intro n; simp [int_to_le_go, ih]

theorem little_endian_to_int_le_go (w : Nat) :
    ∀ n, n < 256 ^ w → little_endian_to_int (int_to_le_go w n) = n := by
  induction w with
  | zero => intro n hn; interval_cases n; rfl
  | succ k ih =>
    intro n hn
    have hdiv : n / 256 < 256 ^ k := by
      rw [Nat.div_lt_iff_lt_mul (by norm_num)]
      calc n < 256 ^ (k + 1) := hn
        _ = 256 ^ k * 256 := by ring
    simp only [int_to_le_go, little_endian_to_int, ih (n / 256) hdiv]
    omega

theorem int_to_little_endian_spec (n w : Nat) (bs : Bytes)
    (h : int_to_little_endian n w = some bs) :
    bs.length = w ∧ little_endian_to_int bs = n := by
  unfold int_to_little_endian at h
  by_cases hc : n < 256 ^ w
  · rw [if_pos hc] at h
    injection h with h
    subst h
    exact ⟨int_to_le_go_length w n, little_endian_to_int_le_go w n hc⟩
  · rw [if_neg hc] at h
    exact absurd h (by simp)

theorem read_varint_encode_varint (n : Nat) (v : Bytes)
    (h : encode_varint n = some v) (rest : Bytes) :
    read_varint (v ++ rest) = some (n, rest) := by
  unfold encode_varint at h
  by_cases h1 : n < 0xfd
  · rw [if_pos h1] at h
    injection h with h
    subst h
    simp only [List.cons_append, List.nil_append, read_varint]
    rw [if_neg (by omega), if_neg (by omega), if_neg (by omega)]
  · rw [if_neg h1] at h
    by_cases h2 : n < 0x10000
    · rw [if_pos h2] at h
      cases hx : int_to_little_endian n 2 with
      | none => rw [hx] at h; exact absurd h (by simp)
      | some bs =>
        rw [hx] at h
        injection h with h
        subst h
        obtain ⟨hlen, hval⟩ := int_to_little_endian_spec n 2 bs hx
        simp only [List.cons_append, read_varint]
        rw [← hlen, List.take_left bs rest, List.drop_left bs rest, hval]
        simp
    · rw [if_neg h2] at h
      by_cases h3 : n < 0x100000000
      · rw [if_pos h3] at h
        cases hx : int_to_little_endian n 4 with
        | none => rw [hx] at h; exact absurd h (by simp)
        | some bs =>
          rw [hx] at h
          injection h with h
          subst h
          obtain ⟨hlen, hval⟩ := int_to_little_endian_spec n 4 bs hx
          simp only [List.cons_append, read_varint]
          rw [← hlen, List.take_left bs rest, List.drop_left bs rest, hval]
          simp
      · by_cases h4 : n < 0x10000000000000000
        · rw [if_neg h3, if_pos h4] at h
          cases hx : int_to_little_endian n 8 with
          | none => rw [hx] at h; exact absurd h (by simp)
          | some bs =>
            rw [hx] at h
            injection h with h
            subst h
            obtain ⟨hlen, hval⟩ := int_to_little_endian_spec n 8 bs hx
            simp only [List.cons_append, read_varint]
            rw [← hlen, List.take_left bs rest, List.drop_left bs rest, hval]
            simp
        · rw [if_neg h3, if_neg h4] at h
          exact absurd h (by simp)
theorem serialize_items_append (l1 l2 : List Item) :
    serialize_items (l1 ++ l2)
      = (serialize_items l1).bind (fun x => (serialize_items l2).map (x ++ ·)) := by
  induction l1 with
  | nil =>
    simp only [List.nil_append, serialize_items, Option.some_bind]
    cases serialize_items l2 <;> simp
  | cons i rest ih =>
    cases i with
    | op c =>
      simp only [List.cons_append, serialize_items]
      cases int_to_little_endian c 1 with
      | none => simp
      | some x =>
        cases hr : serialize_items rest with
        | none => simp [ih, hr]
        | some r =>
          cases hl : serialize_items l2 with
          | none => simp [ih, hr, hl]
          | some y => simp [ih, hr, hl, List.append_assoc]
    | data d =>
      simp only [List.cons_append, serialize_items]
      cases int_to_little_endian d.length 1 with
      | none => simp
      | some p =>
        cases hr : serialize_items rest with
        | none => simp [ih, hr]
        | some r =>
          cases hl : serialize_items l2 with
          | none => simp [ih, hr, hl]
          | some y => simp [ih, hr, hl, List.append_assoc]

theorem int_to_little_endian_byte (b : Nat) (hb : b < 256) :
    int_to_little_endian b 1 = some [b] := by
  unfold int_to_little_endian
  rw [if_pos (by simpa using hb)]
  simp [int_to_le_go, Nat.mod_eq_of_lt hb]

theorem parseLoop_serialize (its : List Item) :
    ∀ (raw : Bytes), its.all itemWF = true → serialize_items its = some raw →
    ∀ (k : Nat) (s : Bytes),
      parseLoop (raw.length + k) (raw ++ s)
        = (parseLoop k s).map (fun p => (its ++ p.1, p.2)) := by
  induction its with
  | nil =>
    intro raw _ hser k s
    simp only [serialize_items] at hser
    injection hser with hser
    subst hser
    simp only [List.length_nil, Nat.zero_add, List.nil_append]
    cases hp : parseLoop k s with
    | none => simp
    | some p => cases p; simp
  | cons i rest ih =>
    intro raw hwf hser k s
    simp only [List.all_cons, Bool.and_eq_true] at hwf
    obtain ⟨hwf1, hwf2⟩ := hwf
    cases i with
    | op b =>
      simp only [itemWF, Bool.and_eq_true, Bool.not_eq_true', decide_eq_true_eq,
        decide_eq_false_iff_not] at hwf1
      obtain ⟨hb256, hbrange⟩ := hwf1
      have hx := int_to_little_endian_byte b hb256
      cases hr : serialize_items rest with
      | none => simp [serialize_items, hx, hr] at hser
      | some raw2 =>
        simp only [serialize_items, hx, hr, Option.some_bind] at hser
        injection hser with hser
        subst hser
        have harith : (([b] ++ raw2 : Bytes)).length + k = (raw2.length + k) + 1 := by
          simp
          omega
        rw [harith]
        have hstream : (([b] ++ raw2 : Bytes)) ++ s = b :: (raw2 ++ s) := by simp
        rw [hstream]
        simp only [parseLoop]
        rw [if_neg hbrange]
        rw [ih raw2 hwf2 hr k s]
        cases hp : parseLoop k s with
        | none => simp
        | some p => cases p; simp
    | data d =>
      simp only [itemWF, decide_eq_true_eq] at hwf1
      have hd256 : d.length < 256 := by omega
      have hx := int_to_little_endian_byte d.length hd256
      cases hr : serialize_items rest with
      | none => simp [serialize_items, hx, hr] at hser
      | some raw2 =>
        simp only [serialize_items, hx, hr, Option.some_bind] at hser
        injection hser with hser
        subst hser
        have harith : (([d.length] ++ d ++ raw2 : Bytes)).length + k
            = ((d ++ raw2).length + k) + 1 := by
          simp
          omega
        rw [harith]
        have hstream : (([d.length] ++ d ++ raw2 : Bytes)) ++ s
            = d.length :: (d ++ (raw2 ++ s)) := by simp
        rw [hstream]
        simp only [parseLoop]
        rw [if_pos hwf1]
        have hdrop : (d ++ (raw2 ++ s)).drop d.length = raw2 ++ s :=
          List.drop_left d (raw2 ++ s)
        have htake : (d ++ (raw2 ++ s)).take d.length = d :=
          List.take_left d (raw2 ++ s)
        have harith2 : (d ++ raw2).length + k - d.length = raw2.length + k := by
          simp
          omega
        rw [hdrop, htake, harith2, ih raw2 hwf2 hr k s]
        cases hp : parseLoop k s with
        | none => simp
        | some p => cases p; simp

theorem serialize_items_single_op (b : Nat) (hb : b < 256) :
    serialize_items [Item.op b] = some [b] := by
  simp [serialize_items, int_to_little_endian_byte b hb]

theorem serialize_items_single_data (d : Bytes) (hd : d.length < 256) :
    serialize_items [Item.data d] = some (d.length :: d) := by
  simp [serialize_items, int_to_little_endian_byte d.length hd]

/-- C4 (confirmed): for every valid parsed Script instance, that is one
whose opcode items are byte values outside the data-push range 1..75 and
whose data items hold 1..75 bytes, parsing the serialization returns the
identical script item for item with the stream fully consumed. -/
theorem parse_serialize_roundtrip (s : Script) (bs : Bytes)
    (hwf : s.wellFormed = true) (hser : s.serialize = some bs) :
    Script.parse bs = some (s, []) := by
  cases hraw : s.raw_serialize with
  | none => simp [Script.serialize, hraw] at hser
  | some raw =>
    cases hpre : encode_varint raw.length with
    | none => simp [Script.serialize, hraw, hpre] at hser
    | some pre =>
      simp [Script.serialize, hraw, hpre] at hser
      subst hser
      have hv := read_varint_encode_varint raw.length pre hpre raw
      have hloop := parseLoop_serialize s.items raw hwf hraw 0 []
      simp only [Nat.add_zero, List.append_nil] at hloop
      simp only [Script.parse, hv, hloop, parseLoop]
      simp

/-- C4 (witness): a concrete round trip through the p2sh template
shape. -/
theorem parse_serialize_roundtrip_witness :
    Script.serialize ⟨[Item.op 0xa9, Item.data [1, 2], Item.op 0x87]⟩
      = some [5, 0xa9, 2, 1, 2, 0x87]
    ∧ Script.parse [5, 0xa9, 2, 1, 2, 0x87]
      = some (⟨[Item.op 0xa9, Item.data [1, 2], Item.op 0x87]⟩, []) :=
  ⟨rfl, parse_serialize_roundtrip ⟨[Item.op 0xa9, Item.data [1, 2], Item.op 0x87]⟩
    [5, 0xa9, 2, 1, 2, 0x87] (by decide) rfl⟩

/-- C6 (amended): parse reads a varint length and then consumes bytes by
the per-step rules, one control byte per step and, for a control byte in
1..75, that many following bytes as one data item.  Consumption equals
the declared length whenever the declared length lands on an item
boundary and the stream suffices, as for any well-formed raw
serialization followed by arbitrary junk: the junk comes back as the
unread remainder.  When a data item straddles the declared end the count
overshoots and more than the declared length is consumed. -/
theorem parse_consumes_declared_length (s : Script) (junk raw pre : Bytes)
    (hwf : s.wellFormed = true) (hraw : s.raw_serialize = some raw)
    (hpre : encode_varint raw.length = some pre) :
    Script.parse (pre ++ (raw ++ junk)) = some (s, junk) := by
  have hv := read_varint_encode_varint raw.length pre hpre (raw ++ junk)
  have hloop := parseLoop_serialize s.items raw hwf hraw 0 junk
  simp only [Nat.add_zero] at hloop
  simp only [Script.parse, hv, hloop, parseLoop]
  simp

/-- C6 (witness): a concrete parse consuming exactly the declared five
bytes and returning the two junk bytes unread. -/
theorem parse_consumes_declared_length_witness :
    Script.parse ([5] ++ ([0xa9, 2, 1, 2, 0x87] ++ [7, 7]))
      = some (⟨[Item.op 0xa9, Item.data [1, 2], Item.op 0x87]⟩, [7, 7]) :=
  parse_consumes_declared_length ⟨[Item.op 0xa9, Item.data [1, 2], Item.op 0x87]⟩
    [7, 7] [0xa9, 2, 1, 2, 0x87] [5] (by decide) rfl rfl

/-- C6 (counterexample): a declared length of 2 followed by a data item
whose run straddles the declared end: the control byte 2 makes parse
read two more bytes, so three bytes are consumed after the varint, not
the declared two, and parse still succeeds. -/
theorem parse_consumes_overshoot_cx :
    read_varint [2, 2, 0xaa, 0xbb] = some (2, [2, 0xaa, 0xbb])
    ∧ Script.parse [2, 2, 0xaa, 0xbb] = some (⟨[Item.data [0xaa, 0xbb]]⟩, [])
    ∧ ([2, 0xaa, 0xbb] : Bytes).length - ([] : Bytes).length ≠ 2 := by
  refine ⟨rfl, ?_, by decide⟩
  norm_num [Script.parse, read_varint, parseLoop]

/-- C5 (amended): truncating a serialized script by one byte makes parse
fail only when the final item is an opcode (the loop then asks for a
control byte past the end of the stream); when the final item is a data
push, parse succeeds silently and returns the script with its final data
item one byte short.  Parse therefore does not reliably detect
truncation and can return a silent short result. -/
theorem parse_truncated_last_byte (s : Script) (bs : Bytes)
    (hwf : s.wellFormed = true) (hser : s.serialize = some bs) :
    (∀ (its : List Item) (b : Nat), s.items = its ++ [Item.op b] →
        Script.parse bs.dropLast = none)
    ∧ (∀ (its : List Item) (d : Bytes), s.items = its ++ [Item.data d] →
        Script.parse bs.dropLast = some (⟨its ++ [Item.data d.dropLast]⟩, [])) := by
  cases hraw : s.raw_serialize with
  | none => simp [Script.serialize, hraw] at hser
  | some raw =>
    cases hpre : encode_varint raw.length with
    | none => simp [Script.serialize, hraw, hpre] at hser
    | some pre =>
      simp [Script.serialize, hraw, hpre] at hser
      subst hser
      have hraws : serialize_items s.items = some raw := hraw
      constructor
      · intro its b hitems
        rw [hitems] at hraws
        have hwfs : (its ++ [Item.op b]).all itemWF = true := by
          have := hwf
          unfold Script.wellFormed at this
          rwa [hitems] at this
        simp only [List.all_append, Bool.and_eq_true] at hwfs
        obtain ⟨hwf1, hwf2⟩ := hwfs
        have hb : b < 256 ∧ (b = 0 ∨ 75 < b) := by
          simpa [itemWF] using hwf2
        rw [serialize_items_append, serialize_items_single_op b hb.1] at hraws
        cases hr1 : serialize_items its with
        | none => rw [hr1] at hraws; exact absurd hraws (by simp)
        | some raw1 =>
          rw [hr1] at hraws
          simp at hraws
          subst hraws
          have hdl : (pre ++ (raw1 ++ [b])).dropLast = pre ++ raw1 := by
            rw [← List.append_assoc]
            exact List.dropLast_concat
          rw [hdl]
          have hv := read_varint_encode_varint (raw1 ++ [b]).length pre hpre raw1
          have hloop := parseLoop_serialize its raw1 hwf1 hr1 1 []
          have harith : (raw1 ++ [b] : Bytes).length = raw1.length + 1 := by simp
          rw [harith] at hv
          simp only [List.append_nil] at hloop
          simp only [Script.parse, hv, hloop, parseLoop]
          simp [parseLoop]
      · intro its d hitems
        rw [hitems] at hraws
        have hwfs : (its ++ [Item.data d]).all itemWF = true := by
          have := hwf
          unfold Script.wellFormed at this
          rwa [hitems] at this
        simp only [List.all_append, Bool.and_eq_true] at hwfs
        obtain ⟨hwf1, hwf2⟩ := hwfs
        have hd : 1 ≤ d.length ∧ d.length ≤ 75 := by
          simpa [itemWF] using hwf2
        rw [serialize_items_append, serialize_items_single_data d (by omega)] at hraws
        cases hr1 : serialize_items its with
        | none => rw [hr1] at hraws; exact absurd hraws (by simp)
        | some raw1 =>
          rw [hr1] at hraws
          simp at hraws
          subst hraws
          rcases List.eq_nil_or_concat' d with hnil | ⟨d0, dl, hcat⟩
          · rw [hnil] at hd; simp at hd
          · subst hcat
            have hdl2 : (d0 ++ [dl]).dropLast = d0 := List.dropLast_concat
            have hdl : (pre ++ (raw1 ++ (d0 ++ [dl]).length :: (d0 ++ [dl]))).dropLast
                = pre ++ (raw1 ++ ((d0 ++ [dl]).length :: d0)) := by
              have hx : pre ++ (raw1 ++ (d0 ++ [dl]).length :: (d0 ++ [dl]))
                  = (pre ++ (raw1 ++ ((d0 ++ [dl]).length :: d0))) ++ [dl] := by
                simp
              rw [hx, List.dropLast_concat]
            rw [hdl]
            have hv := read_varint_encode_varint
              (raw1 ++ (d0 ++ [dl]).length :: (d0 ++ [dl])).length pre hpre
              (raw1 ++ ((d0 ++ [dl]).length :: d0))
            have harith : (raw1 ++ (d0 ++ [dl]).length :: (d0 ++ [dl]) : Bytes).length
                = raw1.length + ((d0 ++ [dl]).length + 1) := by
              simp
            rw [harith] at hv
            have hloop := parseLoop_serialize its raw1 hwf1 hr1
              ((d0 ++ [dl]).length + 1) ((d0 ++ [dl]).length :: d0)
            have hinner : parseLoop ((d0 ++ [dl]).length + 1) ((d0 ++ [dl]).length :: d0)
                = some ([Item.data d0], []) := by
              simp only [parseLoop]
              rw [if_pos (by simpa using hd)]
              have ht : d0.take (d0 ++ [dl]).length = d0 :=
                List.take_of_length_le (by simp)
              have hdr : d0.drop (d0 ++ [dl]).length = [] :=
                List.drop_eq_nil_of_le (by simp)
              have hz : (d0 ++ [dl] : Bytes).length - (d0 ++ [dl]).length = 0 := by omega
              rw [ht, hdr, hz]
              simp [parseLoop]
            rw [hinner] at hloop
            simp only [Script.parse, hv, hloop, parseLoop]
            simp [hdl2]

/-- C5 (witness): both truncation outcomes on concrete scripts: a script
ending in an opcode fails to parse once truncated, and a script ending
in a data push parses silently with the final item short. -/
theorem parse_truncated_last_byte_witness :
    Script.parse (([3, 1, 0xbb, 0xa9] : Bytes).dropLast) = none
    ∧ Script.parse (([3, 0xa9, 1, 0xbb] : Bytes).dropLast)
      = some (⟨[Item.op 0xa9, Item.data []]⟩, []) :=
  ⟨(parse_truncated_last_byte ⟨[Item.data [0xbb], Item.op 0xa9]⟩ [3, 1, 0xbb, 0xa9]
      (by decide) rfl).1 [Item.data [0xbb]] 0xa9 rfl,
   (parse_truncated_last_byte ⟨[Item.op 0xa9, Item.data [0xbb]]⟩ [3, 0xa9, 1, 0xbb]
      (by decide) rfl).2 [Item.op 0xa9] [0xbb] rfl⟩

/-- C5 (counterexample): removing the last byte of the serialization of
the one-item script with data push 0xaa does not make parse fail: parse
returns a script holding an empty data item, a silent short result. -/
theorem parse_truncated_silent_short_cx :
    Script.serialize ⟨[Item.data [0xaa]]⟩ = some [2, 1, 0xaa]
    ∧ Script.parse [2, 1] = some (⟨[Item.data []]⟩, []) := by
  refine ⟨rfl, ?_⟩
  norm_num [Script.parse, read_varint, parseLoop]

/-- C9 (confirmed): address matches the item list against exactly four
templates by item shape: P2PKH (0x76, 0xa9, 20-byte item, 0x88, 0xac)
and P2SH (0xa9, 20-byte item, 0x87) delegate to the base58 encoders with
the embedded hash and the network flag; P2WPKH (0x00, 20-byte item) and
P2WSH (0x00, 32-byte item) delegate to the bech32 encoder with the raw
serialization and the prefix chosen by the network flag; any other shape
yields no result. -/
theorem address_template_dispatch (α : Type) (A : AddrEnv α) (t : Bool) :
    (∀ h : Bytes, h.length = 20 →
      Script.address α A ⟨[Item.op 0x76, Item.op 0xa9, Item.data h, Item.op 0x88,
        Item.op 0xac]⟩ t = some (A.h160_to_p2pkh_address h t))
    ∧ (∀ h : Bytes, h.length = 20 →
      Script.address α A ⟨[Item.op 0xa9, Item.data h, Item.op 0x87]⟩ t
        = some (A.h160_to_p2sh_address h t))
    ∧ (∀ h : Bytes, h.length = 20 →
      Script.address α A ⟨[Item.op 0x00, Item.data h]⟩ t
        = some (A.encode_bech32_checksum (0x00 :: h.length :: h)
            (if t then [0x74, 0x62] else [0x62, 0x63])))
    ∧ (∀ h : Bytes, h.length = 32 →
      Script.address α A ⟨[Item.op 0x00, Item.data h]⟩ t
        = some (A.encode_bech32_checksum (0x00 :: h.length :: h)
            (if t then [0x74, 0x62] else [0x62, 0x63])))
    ∧ (∀ s : Script, s.is_p2pkh_script_pubkey = false → s.is_p2sh_script_pubkey = false →
        s.is_p2wpkh_script_pubkey = false → s.is_p2wsh_script_pubkey = false →
        Script.address α A s t = none) := by
  refine ⟨?_, ?_, ?_, ?_, ?_⟩
  · intro h hh
    simp [Script.address, Script.is_p2pkh_script_pubkey, hh]
  · intro h hh
    simp [Script.address, Script.is_p2pkh_script_pubkey, Script.is_p2sh_script_pubkey, hh]
  · intro h hh
    have hraw : Script.raw_serialize ⟨[Item.op 0x00, Item.data h]⟩
        = some (0x00 :: h.length :: h) := by
      simp [Script.raw_serialize, serialize_items, int_to_little_endian_byte 0 (by norm_num),
        int_to_little_endian_byte h.length (by omega)]
    simp [Script.address, Script.is_p2pkh_script_pubkey, Script.is_p2sh_script_pubkey,
      Script.is_p2wpkh_script_pubkey, hh, hraw]
  · intro h hh
    have hraw : Script.raw_serialize ⟨[Item.op 0x00, Item.data h]⟩
        = some (0x00 :: h.length :: h) := by
      simp [Script.raw_serialize, serialize_items, int_to_little_endian_byte 0 (by norm_num),
        int_to_little_endian_byte h.length (by omega)]
    simp [Script.address, Script.is_p2pkh_script_pubkey, Script.is_p2sh_script_pubkey,
      Script.is_p2wpkh_script_pubkey, Script.is_p2wsh_script_pubkey, hh, hraw]
  · intro s h1 h2 h3 h4
    simp [Script.address, h1, h2, h3, h4]

/-- C9 (witness): the four templates at concrete hashes reach the four
tagged encoders and a non-template script yields no result. -/
theorem address_template_dispatch_witness :
    Script.address Nat A0 ⟨[Item.op 0x76, Item.op 0xa9, Item.data h20, Item.op 0x88,
      Item.op 0xac]⟩ false = some 1
    ∧ Script.address Nat A0 ⟨[Item.op 0xa9, Item.data h20, Item.op 0x87]⟩ false = some 2
    ∧ Script.address Nat A0 ⟨[Item.op 0x00, Item.data h20]⟩ false = some 3
    ∧ Script.address Nat A0 ⟨[Item.op 0x00, Item.data h32]⟩ true = some 3
    ∧ Script.address Nat A0 ⟨[Item.op 0x51]⟩ false = none := by
  obtain ⟨c1, c2, c3, -, c5⟩ := address_template_dispatch Nat A0 false
  obtain ⟨-, -, -, d4, -⟩ := address_template_dispatch Nat A0 true
  exact ⟨c1 h20 (by simp [h20]), c2 h20 (by simp [h20]), c3 h20 (by simp [h20]),
    d4 h32 (by simp [h32]), c5 ⟨[Item.op 0x51]⟩ rfl rfl rfl rfl⟩

/-- C10 (confirmed): script addition concatenates the item lists, the
raw serialization of a sum is the concatenation of the raw
serializations, and the hash160 and sha256 digests of the sum are the
digests of that concatenation. -/
theorem script_add_homomorphism (f g : Bytes → Bytes) (a b : Script) (ra rb : Bytes)
    (ha : a.raw_serialize = some ra) (hb : b.raw_serialize = some rb) :
    (a + b).items = a.items ++ b.items
    ∧ (a + b).raw_serialize = some (ra ++ rb)
    ∧ Script.hash160 f (a + b) = some (f (ra ++ rb))
    ∧ Script.sha256 g (a + b) = some (g (ra ++ rb)) := by
  have hadd : (a + b).items = a.items ++ b.items := rfl
  have hraw : (a + b).raw_serialize = some (ra ++ rb) := by
    show serialize_items (a.items ++ b.items) = some (ra ++ rb)
    rw [serialize_items_append]
    have ha2 : serialize_items a.items = some ra := ha
    have hb2 : serialize_items b.items = some rb := hb
    rw [ha2, hb2]
    rfl
  refine ⟨hadd, hraw, ?_, ?_⟩
  · show ((a + b).raw_serialize).map f = some (f (ra ++ rb))
    rw [hraw]
    rfl
  · show ((a + b).raw_serialize).map g = some (g (ra ++ rb))
    rw [hraw]
    rfl

/-- C10 (witness): a concrete sum whose raw serialization and identity
digests equal the concatenated serializations of the summands. -/
theorem script_add_homomorphism_witness :
    (Script.mk [Item.op 0] + Script.mk [Item.data [5]]).raw_serialize = some [0, 1, 5]
    ∧ Script.hash160 id (Script.mk [Item.op 0] + Script.mk [Item.data [5]])
      = some [0, 1, 5]
    ∧ Script.sha256 id (Script.mk [Item.op 0] + Script.mk [Item.data [5]])
      = some [0, 1, 5] := by
  have H := script_add_homomorphism id id ⟨[Item.op 0]⟩ ⟨[Item.data [5]]⟩ [0] [1, 5] rfl rfl
  exact ⟨H.2.1, H.2.2.1, H.2.2.2⟩
